import Mathlib

/-!
Verification of `content-vector` (a retrieval-augmented QA pipeline over
transcribed media) against its design specification.

The development shallowly embeds the repository's own deterministic logic:

* `src/chunker.py` — the sentence-boundary-aware chunker `chunk_text`;
* `src/query.py`   — `build_context` and the orchestrator `ask`;
* `src/vectordb.py` — `query_similar`, `get_stats`, `clear_database`.

Python strings are modelled as `List Char`; Python slice/`rfind`/`strip`
semantics are embedded explicitly (`pySlice`, `pyRfind?`, `pyStrip`).
External components (the ChromaDB embedding/ANN engine and the LLM
providers) are opaque in the source and enter the model only as oracle
function parameters; everything else is translated from the source.

The `while` loop of `chunk_text` need not terminate for all parameter
values (this is one of the verified findings), so the loop is embedded
with explicit fuel: `chunkSpans fuel` returns `none` when `fuel`
iterations were not enough.  Divergence of the real loop at a given input
is expressed as `none` for every fuel (`chunkerDiverges`).
-/

namespace ContentVector

/-! ### Python string primitives -/

/-- Whitespace test used by Python `str.strip()` (ASCII whitespace; the
inputs in this development contain no exotic Unicode spaces). -/
def isPySpace (c : Char) : Bool :=
  c == ' ' || c == '\t' || c == '\n' || c == '\r' || c == '\x0b' || c == '\x0c'

/-- Python `str.strip()` on a list of characters. -/
def pyStrip (l : List Char) : List Char :=
  ((l.dropWhile isPySpace).reverse.dropWhile isPySpace).reverse

/-- Python slice-index normalisation for a string of length `n`:
negative indices count from the end, then the result is clamped to
`[0, n]`. -/
def pyIdx (n : Nat) (i : Int) : Nat :=
  min (if i < 0 then i + n else i).toNat n

/-- Python slice `l[a:b]`. -/
def pySlice (l : List Char) (a b : Int) : List Char :=
  (l.take (pyIdx l.length b)).drop (pyIdx l.length a)

/-- Python `l.rfind(sep, a, b)`: the largest index `i` with
`a' ≤ i`, `i + len(sep) ≤ b'` (after slice-index normalisation) at which
`sep` occurs in `l`; `none` when there is no such index (Python's `-1`). -/
def pyRfind? (l sep : List Char) (a b : Int) : Option Nat :=
  let lo := pyIdx l.length a
  let hi := pyIdx l.length b
  ((List.range (hi + 1)).filter
    (fun i => decide (lo ≤ i) && decide (i + sep.length ≤ hi)
      && decide ((l.drop i).take sep.length = sep))).getLast?

/-! ### Chunker (`src/chunker.py`, `chunk_text`) -/

/-- The sentence-terminating separators tried by `chunk_text`, in the
source's priority order. -/
def seps : List (List Char) :=
  [". ".data, "? ".data, "! ".data, "\n\n".data, "\n".data]

/-- The `for sep in [...]` search of `chunk_text`: the first separator in
`ss` whose last occurrence in the window `[a, b)` exists gives the new
chunk end `last_sep + len(sep)`. -/
def findSepEnd (l : List Char) (a b : Int) : List (List Char) → Option Nat
  | [] => none
  | sep :: rest =>
    match pyRfind? l sep a b with
    | some i => some (i + sep.length)
    | none => findSepEnd l a b rest

/-- The chunk end chosen by one iteration of `chunk_text`'s loop for the
cursor `s`: `end = s + chunk_size`, moved back to a sentence boundary
found in `[s + chunk_size // 2, end)` when `end < len(text)`. -/
def chooseEnd (l : List Char) (cs : Nat) (s : Int) : Int :=
  let e0 : Int := s + (cs : Int)
  if e0 < (l.length : Int) then
    match findSepEnd l (s + ((cs / 2 : Nat) : Int)) e0 seps with
    | some e => (e : Int)
    | none => e0
  else e0

/-- The `while start < len(text)` loop of `chunk_text`, with explicit
fuel, returning the `(start, end)` window of each iteration (the emitted
chunk is the stripped slice of the window; empty chunks are filtered by
the caller, matching `if chunk: yield chunk`).  `none` means the given
fuel did not suffice — the real loop is still running. -/
def chunkSpans (l : List Char) (cs ov : Nat) : Nat → Int → Option (List (Int × Int))
  | 0, _ => none
  | fuel + 1, s =>
    if s < (l.length : Int) then
      let e := chooseEnd l cs s
      match chunkSpans l cs ov fuel (e - (ov : Int)) with
      | none => none
      | some rest => some ((s, e) :: rest)
    else some []

/-- The chunk emitted for one loop window: `text[start:end].strip()`. -/
def chunkOfSpan (l : List Char) (p : Int × Int) : List Char :=
  pyStrip (pySlice l p.1 p.2)

/-- `chunk_text(text, chunk_size, overlap)` from `src/chunker.py`.
Returns `none` when the loop does not finish within `len + 1` iterations
(enough for every terminating run, since each iteration that makes
progress advances the cursor by at least one). -/
def chunk_text (text : String) (chunk_size : Nat := 1000) (overlap : Nat := 200) :
    Option (List (List Char)) :=
  let t := text.data
  if t = [] then some []
  else
    let t := pyStrip t
    if t.length ≤ chunk_size then some [t]
    else
      (chunkSpans t chunk_size overlap (t.length + 1) 0).map
        (fun spans => (spans.map (chunkOfSpan t)).filter (fun c => !c.isEmpty))

/-- The real `while` loop of `chunk_text` runs forever on this input:
no fuel bound is ever enough. -/
def chunkerDiverges (text : String) (cs ov : Nat) : Prop :=
  ∀ fuel, chunkSpans (pyStrip text.data) cs ov fuel 0 = none

/-- The cursor discipline of the loop: each window starts at the given
cursor, and the next window starts at `end - overlap`. -/
def spansChainedFrom (ov : Nat) : Int → List (Int × Int) → Prop
  | _, [] => True
  | s, p :: rest => p.1 = s ∧ spansChainedFrom ov (p.2 - (ov : Int)) rest

/-- The overlap-stripped suffix view of a span list: every window loses
its first `overlap` characters. -/
def tailJoin (l : List Char) (ov : Nat) (spans : List (Int × Int)) : List Char :=
  (spans.map (fun p => pySlice l (p.1 + (ov : Int)) p.2)).flatten

/-- The chunk windows with the overlapping region removed: the first
window in full, every later one without its first `overlap`
characters. -/
def overlapDropped (l : List Char) (ov : Nat) : List (Int × Int) → List (List Char)
  | [] => []
  | p :: rest =>
    pySlice l p.1 p.2 :: rest.map (fun q => pySlice l (q.1 + (ov : Int)) q.2)

/-- The reconstruction view of `chunk_text`: same control flow, but
producing the concatenation of the raw (un-stripped) chunk windows
after removing the overlapping regions.  On the short path the single
chunk is the stripped text itself. -/
def chunkWindowsJoined (text : String) (cs ov : Nat) : Option (List Char) :=
  let t := text.data
  if t = [] then some []
  else
    let t := pyStrip t
    if t.length ≤ cs then some t
    else
      (chunkSpans t cs ov (t.length + 1) 0).map
        (fun spans => (overlapDropped t ov spans).flatten)

/-! ### Query orchestrator (`src/query.py`) -/

/-- One element of the list returned by `query_similar`: the stored
document text plus its metadata.  The metadata dictionary access
`r["metadata"].get("source_file", "unknown")` is modelled by an optional
field.  The floating-point `distance` score is not modelled: no claim
and no repository logic depends on its value. -/
structure SearchResult where
  id : List Char
  text : List Char
  source_file : Option (List Char)
deriving DecidableEq

/-- `r["metadata"].get("source_file", "unknown")`. -/
def srcOf (r : SearchResult) : List Char :=
  r.source_file.getD "unknown".data

/-- The block `f"[Source: {source}]\n{text}\n"` built by `build_context`
for one search result. -/
def mkPart (r : SearchResult) : List Char :=
  "[Source: ".data ++ srcOf r ++ "]\n".data ++ r.text ++ "\n".data

/-- The `for r in results` loop of `build_context`: blocks are collected
in result order while `total_chars + len(part) ≤ max_chars`; the first
over-budget block stops the loop (`break`). -/
def contextParts (maxChars : Nat) : List SearchResult → Nat → List (List Char)
  | [], _ => []
  | r :: rs, total =>
    let part := mkPart r
    if maxChars < total + part.length then []
    else part :: contextParts maxChars rs (total + part.length)

/-- Python string join: `sep.join(parts)`. -/
def joinSep (sep : List Char) : List (List Char) → List Char
  | [] => []
  | [p] => p
  | p :: q :: rest => p ++ sep ++ joinSep sep (q :: rest)

/-- `build_context(results, max_chars)` from `src/query.py`. -/
def build_context (results : List SearchResult) (maxChars : Nat := 8000) : List Char :=
  joinSep "\n---\n".data (contextParts maxChars results 0)

/-- The dictionary returned by `ask`. -/
structure Answer where
  answer : List Char
  sources : List (List Char)
  context_chunks : Nat
deriving DecidableEq

/-- The canned reply of `ask` for an empty retrieval result. -/
def noContentAnswer : List Char :=
  "No content found in the database. Please ingest some videos first.".data

/-- `list(set(xs))` for the source-file names.  Python's set iteration
order is unspecified; the model fixes one concrete order (each distinct
element once, at its last occurrence).  Claims treat `sources` only as a
set. -/
def dedup : List (List Char) → List (List Char)
  | [] => []
  | x :: xs => if x ∈ xs then dedup xs else x :: dedup xs

/-- Default model of `ask_openai`. -/
def defaultOpenaiModel : List Char := "gpt-4o-mini".data

/-- Default model of `ask_anthropic`. -/
def defaultAnthropicModel : List Char := "claude-sonnet-4-20250514".data

/-- Python `model or default`: `None` and the empty string both fall
back to the provider's default model. -/
def pickModel (model? : Option (List Char)) (dflt : List Char) : List Char :=
  match model? with
  | none => dflt
  | some m => if m = [] then dflt else m

/-- `ask(question, provider, n_results, db_path, model)` from
`src/query.py`, after retrieval.  The external pieces are parameters:
`llmO`/`llmA` are the OpenAI/Anthropic completion calls
(`model → question → context → answer text`), and `results` is the list
returned by `query_similar` (retrieval itself is delegated to ChromaDB;
see `query_similar` below for the part of it that is repository logic). -/
def ask (llmO llmA : List Char → List Char → List Char → List Char)
    (question provider : List Char) (model? : Option (List Char))
    (results : List SearchResult) : Answer :=
  if results = [] then ⟨noContentAnswer, [], 0⟩
  else
    let context := build_context results 8000
    let answerText :=
      if provider = "openai".data then
        llmO (pickModel model? defaultOpenaiModel) question context
      else
        llmA (pickModel model? defaultAnthropicModel) question context
    ⟨answerText, dedup (results.map srcOf), results.length⟩

/-! ### Vector store adapter (`src/vectordb.py`)

ChromaDB itself is external; the model keeps exactly the client state the
repository's code observes: a map from collection names to stored
records.  `get_or_create_collection` creates an empty collection on
demand, `delete_collection` raises `ValueError` for a missing collection
(modelled with `Except`), `collection.count()` is the record count and
`collection.get(include=["metadatas"])` returns the per-record metadata.
-/

/-- `COLLECTION_NAME = "video_transcripts"` from `src/vectordb.py`. -/
def COLLECTION_NAME : List Char := "video_transcripts".data

/-- A stored record: document text plus the `source_file` metadata entry
(the only metadata the verified operations read). -/
structure RecordEntry where
  id : List Char
  document : List Char
  source_file : Option (List Char)
deriving DecidableEq

/-- The records of one ChromaDB collection. -/
abbrev Collection := List RecordEntry

/-- The persistent-client state: named collections. -/
structure ChromaDB where
  collections : List (List Char × Collection)
deriving DecidableEq

/-- Look a collection up by name. -/
def lookupCollection (db : ChromaDB) (name : List Char) : Option Collection :=
  match db.collections.find? (fun p => decide (p.1 = name)) with
  | some p => some p.2
  | none => none

/-- `client.get_or_create_collection(name)`: returns the existing
collection, or creates (and returns) an empty one. -/
def get_or_create_collection (db : ChromaDB) (name : List Char) :
    ChromaDB × Collection :=
  match lookupCollection db name with
  | some c => (db, c)
  | none => (⟨db.collections ++ [(name, [])]⟩, [])

/-- `client.delete_collection(name)`: removes the collection, raising
`ValueError` (the `error` branch) when it does not exist. -/
def delete_collection (db : ChromaDB) (name : List Char) :
    Except Unit ChromaDB :=
  match lookupCollection db name with
  | some _ => .ok ⟨db.collections.filter (fun p => decide (p.1 ≠ name))⟩
  | none => .error ()

/-- `clear_database` from `src/vectordb.py`: `delete_collection` with
`except ValueError: pass`, so it is a total function on the client
state. -/
def clear_database (db : ChromaDB) (name : List Char) : ChromaDB :=
  match delete_collection db name with
  | .ok db' => db'
  | .error _ => db

/-- The dictionary returned by `get_stats`. -/
structure Stats where
  total_chunks : Nat
  source_files : Nat
  files : List (List Char)
deriving DecidableEq

/-- Lexicographic comparison of strings, as Python `sorted` uses on
`str`. -/
def lexLe : List Char → List Char → Bool
  | [], _ => true
  | _ :: _, [] => false
  | a :: as, b :: bs => if a < b then true else if a = b then lexLe as bs else false

/-- Insert into a lexicographically sorted list. -/
def insertLex (x : List Char) : List (List Char) → List (List Char)
  | [] => [x]
  | y :: ys => if lexLe x y then x :: y :: ys else y :: insertLex x ys

/-- `sorted(...)` on file names (insertion sort). -/
def sortLex : List (List Char) → List (List Char)
  | [] => []
  | x :: xs => insertLex x (sortLex xs)

/-- `get_stats` from `src/vectordb.py` (it creates the collection when
absent, hence also returns the possibly-updated client state). -/
def get_stats (db : ChromaDB) (name : List Char) : ChromaDB × Stats :=
  let dbCol := get_or_create_collection db name
  let srcs := dedup (dbCol.2.map (fun r => r.source_file.getD "unknown".data))
  (dbCol.1, ⟨dbCol.2.length, srcs.length, sortLex srcs⟩)

/-- `query_similar` from `src/vectordb.py`.  The embedding and
nearest-neighbour search are delegated to ChromaDB, modelled by the
oracle `ann` (query text → result count → stored records → results);
the repository's own logic is the empty-store early return. -/
def query_similar (ann : List Char → Nat → Collection → List SearchResult)
    (db : ChromaDB) (name query : List Char) (n_results : Nat) :
    List SearchResult :=
  let dbCol := get_or_create_collection db name
  if dbCol.2.length = 0 then [] else ann query n_results dbCol.2

/-! ### Basic facts about the Python primitives -/

theorem pyIdx_le (n : Nat) (i : Int) : pyIdx n i ≤ n :=
  min_le_right _ _

theorem pyIdx_of_nonneg (n : Nat) (i : Int) (h : 0 ≤ i) :
    pyIdx n i = min i.toNat n := by
  simp [pyIdx, not_lt.mpr h]

theorem pyIdx_cast_of_le (n : Nat) (i : Int) (h0 : 0 ≤ i) (h1 : i ≤ n) :
    (pyIdx n i : Int) = i := by
  rw [pyIdx_of_nonneg n i h0]
  omega

theorem pyIdx_cast_le (n : Nat) (i : Int) (h0 : 0 ≤ i) :
    (pyIdx n i : Int) ≤ i := by
  rw [pyIdx_of_nonneg n i h0]
  omega

theorem pyRfind?_bounds {l sep : List Char} {a b : Int} {i : Nat}
    (h : pyRfind? l sep a b = some i) :
    pyIdx l.length a ≤ i ∧ i + sep.length ≤ pyIdx l.length b := by
  have hmem := List.mem_of_getLast?_eq_some h
  rw [List.mem_filter] at hmem
  have hp := hmem.2
  simp only [Bool.and_eq_true, decide_eq_true_eq] at hp
  exact ⟨hp.1.1, hp.1.2⟩

theorem findSepEnd_bounds {l : List Char} {a b : Int} :
    ∀ {ss : List (List Char)} {e : Nat}, (∀ sep ∈ ss, sep ≠ []) →
      findSepEnd l a b ss = some e →
      pyIdx l.length a + 1 ≤ e ∧ e ≤ pyIdx l.length b := by
  intro ss
  induction ss with
  | nil => intro e _ h; simp [findSepEnd] at h
  | cons sep rest ih =>
    intro e hne h
    rw [findSepEnd] at h
    cases hr : pyRfind? l sep a b with
    | some i =>
      rw [hr] at h
      have hb := pyRfind?_bounds hr
      have hlen : 1 ≤ sep.length := by
        have : sep ≠ [] := hne sep (by simp)
        cases sep with
        | nil => exact absurd rfl this
        | cons c cs => simp
      have he : e = i + sep.length := by
        simpa using h.symm
      omega
    | none =>
      rw [hr] at h
      exact ih (fun s hs => hne s (by simp [hs])) h

theorem seps_ne_nil : ∀ sep ∈ seps, sep ≠ ([] : List Char) := by decide

theorem chooseEnd_bounds (l : List Char) (cs : Nat) (hcs : 0 < cs)
    (s : Int) (hs : 0 ≤ s) :
    s + ((cs / 2 : Nat) : Int) + 1 ≤ chooseEnd l cs s ∧
      chooseEnd l cs s ≤ s + (cs : Int) := by
  have hhalf : (cs / 2 : Nat) < cs := Nat.div_lt_self hcs (by norm_num)
  rw [chooseEnd]
  by_cases hb : (s + (cs : Int)) < (l.length : Int)
  · rw [if_pos hb]
    cases hf : findSepEnd l (s + ((cs / 2 : Nat) : Int)) (s + (cs : Int)) seps with
    | none => dsimp only; constructor <;> omega
    | some e =>
      dsimp only
      have hbnd := findSepEnd_bounds seps_ne_nil hf
      have hlo : (pyIdx l.length (s + ((cs / 2 : Nat) : Int)) : Int)
          = s + ((cs / 2 : Nat) : Int) := by
        apply pyIdx_cast_of_le
        · omega
        · omega
      have hhi : (pyIdx l.length (s + (cs : Int)) : Int) ≤ s + (cs : Int) :=
        pyIdx_cast_le _ _ (by omega)
      obtain ⟨h1, h2⟩ := hbnd
      constructor <;> omega
  · rw [if_neg hb]
    constructor <;> omega

theorem chooseEnd_step (l : List Char) (cs ov : Nat) (hcs : 0 < cs)
    (hov : ov ≤ cs / 2) (s : Int) (hs : 0 ≤ s) :
    s + 1 ≤ chooseEnd l cs s - (ov : Int) ∧
      chooseEnd l cs s - (ov : Int) ≤ s + (cs : Int) := by
  obtain ⟨h1, h2⟩ := chooseEnd_bounds l cs hcs s hs
  omega

/-! ### The chunking loop: divergence, termination, invariants -/

theorem chunkSpans_zero (l : List Char) (cs ov : Nat) (s : Int) :
    chunkSpans l cs ov 0 s = none := rfl

theorem chunkSpans_succ (l : List Char) (cs ov fuel : Nat) (s : Int) :
    chunkSpans l cs ov (fuel + 1) s =
      if s < (l.length : Int) then
        match chunkSpans l cs ov fuel (chooseEnd l cs s - (ov : Int)) with
        | none => none
        | some rest => some ((s, chooseEnd l cs s) :: rest)
      else some [] := rfl

theorem chunkSpans_fixed (l : List Char) (cs ov : Nat) (s : Int)
    (h1 : s < (l.length : Int)) (h2 : chooseEnd l cs s - (ov : Int) = s) :
    ∀ fuel, chunkSpans l cs ov fuel s = none := by
  intro fuel
  induction fuel with
  | zero => rfl
  | succ k ih =>
    rw [chunkSpans_succ, if_pos h1, h2, ih]

theorem chunkSpans_none_step (l : List Char) (cs ov : Nat) (s s' : Int)
    (h1 : s < (l.length : Int)) (h2 : chooseEnd l cs s - (ov : Int) = s')
    (h3 : ∀ fuel, chunkSpans l cs ov fuel s' = none) :
    ∀ fuel, chunkSpans l cs ov fuel s = none := by
  intro fuel
  cases fuel with
  | zero => rfl
  | succ k => rw [chunkSpans_succ, if_pos h1, h2, h3 k]

theorem chunkSpans_isSome (l : List Char) (cs ov : Nat)
    (hcs : 0 < cs) (hov : ov ≤ cs / 2) :
    ∀ (k : Nat) (s : Int), 0 ≤ s → (l.length : Int) ≤ s + k →
      (chunkSpans l cs ov (k + 1) s).isSome = true := by
  intro k
  induction k with
  | zero =>
    intro s hs hk
    have h : ¬ s < (l.length : Int) := by omega
    rw [chunkSpans_succ, if_neg h]
    rfl
  | succ k ih =>
    intro s hs hk
    by_cases hlt : s < (l.length : Int)
    · have hp := chooseEnd_step l cs ov hcs hov s hs
      have hrec := ih (chooseEnd l cs s - (ov : Int)) (by omega) (by omega)
      obtain ⟨rest, hrest⟩ := Option.isSome_iff_exists.mp hrec
      rw [chunkSpans_succ, if_pos hlt, hrest]
      rfl
    · rw [chunkSpans_succ, if_neg hlt]
      rfl

theorem chunkSpans_chained (l : List Char) (cs ov : Nat) :
    ∀ (k : Nat) (s : Int) (spans : List (Int × Int)),
      chunkSpans l cs ov k s = some spans → spansChainedFrom ov s spans := by
  intro k
  induction k with
  | zero => intro s spans h; simp [chunkSpans_zero] at h
  | succ k ih =>
    intro s spans h
    rw [chunkSpans_succ] at h
    by_cases hlt : s < (l.length : Int)
    · rw [if_pos hlt] at h
      cases hrest : chunkSpans l cs ov k (chooseEnd l cs s - (ov : Int)) with
      | none => rw [hrest] at h; simp at h
      | some rest =>
        rw [hrest] at h
        simp only [Option.some.injEq] at h
        subst h
        exact ⟨rfl, ih _ rest hrest⟩
    · rw [if_neg hlt] at h
      simp only [Option.some.injEq] at h
      subst h
      trivial

theorem chunkSpans_spans_bounds (l : List Char) (cs ov : Nat)
    (hcs : 0 < cs) (hov : ov ≤ cs / 2) :
    ∀ (k : Nat) (s : Int) (spans : List (Int × Int)), 0 ≤ s →
      chunkSpans l cs ov k s = some spans →
      ∀ p ∈ spans, 0 ≤ p.1 ∧ p.1 ≤ p.2 ∧ p.2 ≤ p.1 + (cs : Int) := by
  intro k
  induction k with
  | zero => intro s spans _ h; simp [chunkSpans_zero] at h
  | succ k ih =>
    intro s spans hs h
    rw [chunkSpans_succ] at h
    by_cases hlt : s < (l.length : Int)
    · rw [if_pos hlt] at h
      cases hrest : chunkSpans l cs ov k (chooseEnd l cs s - (ov : Int)) with
      | none => rw [hrest] at h; simp at h
      | some rest =>
        rw [hrest] at h
        simp only [Option.some.injEq] at h
        subst h
        intro p hp
        rcases List.mem_cons.mp hp with hhead | htail
        · subst hhead
          have hb := chooseEnd_bounds l cs hcs s hs
          exact ⟨hs, by dsimp; omega, hb.2⟩
        · have hp' := chooseEnd_step l cs ov hcs hov s hs
          exact ih _ rest (by omega) hrest p htail
    · rw [if_neg hlt] at h
      simp only [Option.some.injEq] at h
      subst h
      intro p hp
      simp at hp


/-! ### Window reconstruction and chunk-length bounds -/

/-- Gluing a truncated-take slice with the remainder of the string. -/
theorem take_drop_glue (l : List Char) (A E : Nat) (hAE : A ≤ E) :
    (l.take (min E l.length)).drop (min A l.length) ++ l.drop E = l.drop A := by
  by_cases hAn : l.length ≤ A
  · have t1 : (l.take (min E l.length)).drop (min A l.length) = [] := by
      apply List.drop_eq_nil_of_le
      rw [List.length_take]
      omega
    rw [t1, List.drop_eq_nil_of_le (by omega : l.length ≤ E),
      List.drop_eq_nil_of_le hAn]
    rfl
  · push_neg at hAn
    have hminA : min A l.length = A := by omega
    rw [hminA]
    conv_rhs => rw [← List.take_append_drop (min E l.length) l]
    rw [List.drop_append_eq_append_drop]
    have hlen : (l.take (min E l.length)).length = min E l.length := by
      rw [List.length_take]
      omega
    have hdropE : l.drop E = (l.drop (min E l.length)).drop (A - min E l.length) := by
      by_cases hEn : l.length ≤ E
      · rw [List.drop_eq_nil_of_le hEn, List.drop_eq_nil_of_le
          (by rw [List.length_drop]; omega)]
      · have : min E l.length = E := by omega
        rw [this, Nat.sub_eq_zero_of_le hAE, List.drop_zero]
    rw [hlen, hdropE]

/-- Gluing a Python slice with the remainder of the string. -/
theorem pySlice_glue (l : List Char) (a e : Int) (h0 : 0 ≤ a) (h1 : a ≤ e) :
    pySlice l a e ++ l.drop e.toNat = l.drop a.toNat := by
  have h0e : 0 ≤ e := le_trans h0 h1
  rw [pySlice, pyIdx_of_nonneg _ _ h0, pyIdx_of_nonneg _ _ h0e]
  exact take_drop_glue l a.toNat e.toNat (by omega)

theorem chunkSpans_tailJoin (l : List Char) (cs ov : Nat)
    (hcs : 0 < cs) (hov : ov ≤ cs / 2) :
    ∀ (k : Nat) (s : Int) (spans : List (Int × Int)), 0 ≤ s →
      chunkSpans l cs ov k s = some spans →
      tailJoin l ov spans = l.drop (s + (ov : Int)).toNat := by
  intro k
  induction k with
  | zero => intro s spans _ h; simp [chunkSpans_zero] at h
  | succ k ih =>
    intro s spans hs h
    rw [chunkSpans_succ] at h
    by_cases hlt : s < (l.length : Int)
    · rw [if_pos hlt] at h
      cases hrest : chunkSpans l cs ov k (chooseEnd l cs s - (ov : Int)) with
      | none => rw [hrest] at h; simp at h
      | some rest =>
        rw [hrest] at h
        simp only [Option.some.injEq] at h
        subst h
        have hp := chooseEnd_step l cs ov hcs hov s hs
        have hrec := ih _ rest (by omega) hrest
        have harg : chooseEnd l cs s - (ov : Int) + (ov : Int) = chooseEnd l cs s := by
          ring
        rw [harg] at hrec
        show pySlice l (s + (ov : Int)) (chooseEnd l cs s) ++ tailJoin l ov rest
            = l.drop (s + (ov : Int)).toNat
        rw [hrec]
        apply pySlice_glue
        · omega
        · have := (chooseEnd_bounds l cs hcs s hs).1
          have hhov : (ov : Int) ≤ ((cs / 2 : Nat) : Int) := by exact_mod_cast hov
          omega
    · rw [if_neg hlt] at h
      simp only [Option.some.injEq] at h
      subst h
      show ([] : List Char) = l.drop (s + (ov : Int)).toNat
      rw [List.drop_eq_nil_of_le (by omega)]

theorem chunkSpans_reconstruct (l : List Char) (cs ov : Nat)
    (hcs : 0 < cs) (hov : ov ≤ cs / 2) (k : Nat) (spans : List (Int × Int))
    (h : chunkSpans l cs ov k 0 = some spans) :
    (overlapDropped l ov spans).flatten = l := by
  cases k with
  | zero => simp [chunkSpans_zero] at h
  | succ k =>
    rw [chunkSpans_succ] at h
    by_cases hlt : (0 : Int) < (l.length : Int)
    · rw [if_pos hlt] at h
      cases hrest : chunkSpans l cs ov k (chooseEnd l cs 0 - (ov : Int)) with
      | none => rw [hrest] at h; simp at h
      | some rest =>
        rw [hrest] at h
        simp only [Option.some.injEq] at h
        subst h
        have hp := chooseEnd_step l cs ov hcs hov 0 (le_refl 0)
        have hrec := chunkSpans_tailJoin l cs ov hcs hov _ _ rest (by omega) hrest
        have harg : chooseEnd l cs 0 - (ov : Int) + (ov : Int) = chooseEnd l cs 0 := by
          ring
        rw [harg] at hrec
        show pySlice l 0 (chooseEnd l cs 0) ++ tailJoin l ov rest = l
        rw [hrec]
        have hglue := pySlice_glue l 0 (chooseEnd l cs 0) (le_refl 0) (by omega)
        simpa using hglue
    · rw [if_neg hlt] at h
      simp only [Option.some.injEq] at h
      subst h
      have : l = [] := by
        cases l with
        | nil => rfl
        | cons c t => exfalso; apply hlt; simp
      rw [this]
      rfl

theorem pyStrip_length_le (l : List Char) : (pyStrip l).length ≤ l.length := by
  rw [pyStrip]
  calc ((l.dropWhile isPySpace).reverse.dropWhile isPySpace).reverse.length
      = ((l.dropWhile isPySpace).reverse.dropWhile isPySpace).length := by
        rw [List.length_reverse]
    _ ≤ (l.dropWhile isPySpace).reverse.length :=
        (List.dropWhile_sublist _).length_le
    _ = (l.dropWhile isPySpace).length := by rw [List.length_reverse]
    _ ≤ l.length := (List.dropWhile_sublist _).length_le

theorem pySlice_length_le (l : List Char) (a b : Int) :
    (pySlice l a b).length ≤ pyIdx l.length b - pyIdx l.length a := by
  rw [pySlice, List.length_drop, List.length_take]
  omega

theorem chunkOfSpan_length_le (l : List Char) (cs : Nat) (p : Int × Int)
    (h1 : 0 ≤ p.1) (h12 : p.1 ≤ p.2) (h2 : p.2 ≤ p.1 + (cs : Int)) :
    (chunkOfSpan l p).length ≤ cs := by
  rw [chunkOfSpan]
  refine le_trans (pyStrip_length_le _) (le_trans (pySlice_length_le l p.1 p.2) ?_)
  rw [pyIdx_of_nonneg _ _ h1, pyIdx_of_nonneg _ _ (le_trans h1 h12)]
  omega

/-! ### Helper lemmas for the individual claims -/

theorem pyStrip_eq_nil (l : List Char) (h : ∀ c ∈ l, isPySpace c = true) :
    pyStrip l = [] := by
  rw [pyStrip]
  have h1 : l.dropWhile isPySpace = [] := List.dropWhile_eq_nil_iff.mpr h
  rw [h1]
  rfl

/-- With a terminating parameter combination, `chunk_text`'s fuel
`len + 1` always suffices. -/
theorem chunk_text_isSome (text : String) (cs ov : Nat)
    (hcs : 0 < cs) (hov : ov ≤ cs / 2) :
    (chunk_text text cs ov).isSome = true := by
  rw [chunk_text]
  by_cases h1 : text.data = []
  · rw [if_pos h1]; rfl
  · rw [if_neg h1]
    by_cases h2 : (pyStrip text.data).length ≤ cs
    · rw [if_pos h2]; rfl
    · rw [if_neg h2]
      have := chunkSpans_isSome (pyStrip text.data) cs ov hcs hov
        (pyStrip text.data).length 0 (le_refl 0) (by omega)
      obtain ⟨spans, hspans⟩ := Option.isSome_iff_exists.mp this
      rw [hspans]
      rfl

theorem mem_dedup {a : List Char} : ∀ {l : List (List Char)}, a ∈ dedup l ↔ a ∈ l := by
  intro l
  induction l with
  | nil => simp [dedup]
  | cons x xs ih =>
    rw [dedup]
    by_cases hx : x ∈ xs
    · rw [if_pos hx]
      constructor
      · intro h; exact List.mem_cons_of_mem x (ih.mp h)
      · intro h
        rcases List.mem_cons.mp h with h | h
        · subst h; exact ih.mpr hx
        · exact ih.mpr h
    · rw [if_neg hx]
      constructor
      · intro h
        rcases List.mem_cons.mp h with h | h
        · subst h; exact List.mem_cons_self a xs
        · exact List.mem_cons_of_mem x (ih.mp h)
      · intro h
        rcases List.mem_cons.mp h with h | h
        · subst h; exact List.mem_cons_self a (dedup xs)
        · exact List.mem_cons_of_mem x (ih.mpr h)

theorem find?_filter_out (l : List (List Char × Collection)) (name : List Char) :
    (l.filter (fun p => decide (p.1 ≠ name))).find? (fun p => decide (p.1 = name))
      = none := by
  induction l with
  | nil => rfl
  | cons p l ih =>
    by_cases hp : p.1 = name
    · simp [List.filter_cons, hp, ih]
    · simp [List.filter_cons, hp, List.find?_cons, ih]

theorem lookup_clear (db : ChromaDB) (name : List Char) :
    lookupCollection (clear_database db name) name = none := by
  rw [clear_database, delete_collection]
  cases h : lookupCollection db name with
  | some c =>
    rw [lookupCollection, find?_filter_out]
  | none => exact h

/-- The running total of `build_context` never exceeds the budget. -/
theorem contextParts_total_le (maxChars : Nat) :
    ∀ (rs : List SearchResult) (t : Nat), t ≤ maxChars →
      t + ((contextParts maxChars rs t).map List.length).sum ≤ maxChars := by
  intro rs
  induction rs with
  | nil => intro t ht; simpa [contextParts] using ht
  | cons r rs ih =>
    intro t ht
    rw [contextParts]
    by_cases hb : maxChars < t + (mkPart r).length
    · rw [if_pos hb]
      simpa using ht
    · rw [if_neg hb]
      push_neg at hb
      have := ih (t + (mkPart r).length) hb
      simp only [List.map_cons, List.sum_cons]
      omega

/-- The joined string is at most the blocks plus one separator each. -/
theorem joinSep_length_le (sep : List Char) (ps : List (List Char)) :
    (joinSep sep ps).length ≤ (ps.map (fun q => q.length + sep.length)).sum := by
  induction ps with
  | nil => simp [joinSep]
  | cons p ps ih =>
    cases ps with
    | nil => simp [joinSep]
    | cons q rest =>
      have hih := ih
      rw [joinSep]
      simp only [List.length_append, List.map_cons, List.sum_cons] at hih ⊢
      omega

theorem sum_map_add_const (ps : List (List Char)) (c : Nat) :
    (ps.map (fun q => q.length + c)).sum = (ps.map List.length).sum + c * ps.length := by
  induction ps with
  | nil => simp
  | cons p ps ih =>
    simp only [List.map_cons, List.sum_cons, List.length_cons, ih]
    ring

/-! ### The claims -/

/-- C1: the spec requires `chunk_text` to fail fast when
`overlap ≥ chunk_size`.  The code has no such guard: at
`chunk_text("a"*30, chunk_size=10, overlap=10)` it enters the chunking
loop and never terminates (the cursor returns to 0 after every
iteration), instead of rejecting the parameters — no fuel bound ever
completes the loop. -/
theorem c1_no_overlap_guard :
    chunkerDiverges "aaaaaaaaaaaaaaaaaaaaaaaaaaaaaa" 10 10 := by
  intro fuel
  exact chunkSpans_fixed (pyStrip "aaaaaaaaaaaaaaaaaaaaaaaaaaaaaa".data) 10 10 0
    (by decide) (by decide) fuel

/-- C2 counterexample: termination does NOT hold for every
`0 ≤ overlap < chunk_size`.  With `chunk_size = 10`, `overlap = 8`
(so `overlap < chunk_size`) and text `"aaaaa\naaaaa\naaaaa\n"`, the
sentence-boundary search moves `end` back to `cursor + 6`, the cursor
jumps to `-2` and stays there forever: the loop never terminates. -/
theorem c2_counterexample :
    (8 : Nat) < 10 ∧ chunkerDiverges "aaaaa\naaaaa\naaaaa\n" 10 8 := by
  refine ⟨by norm_num, ?_⟩
  have hfix : ∀ fuel,
      chunkSpans (pyStrip "aaaaa\naaaaa\naaaaa\n".data) 10 8 fuel (-2) = none :=
    chunkSpans_fixed (pyStrip "aaaaa\naaaaa\naaaaa\n".data) 10 8 (-2)
      (by decide) (by decide)
  exact chunkSpans_none_step (pyStrip "aaaaa\naaaaa\naaaaa\n".data) 10 8 0 (-2)
    (by decide) (by decide) hfix

/-- C2 (amended): for `0 ≤ overlap ≤ chunk_size / 2` the loop of
`chunk_text` terminates (the fuel `len + 1` suffices, because each
iteration advances the cursor by at least one), and after each emitted
chunk ending at `end` the cursor becomes `end - overlap`
(`spansChainedFrom`).  For `chunk_size / 2 < overlap < chunk_size`
termination can fail (see the counterexample). -/
theorem c2_loop_terminates_half_overlap (text : String) (cs ov : Nat)
    (hcs : 0 < cs) (hov : ov ≤ cs / 2) :
    (chunk_text text cs ov).isSome = true ∧
    ∀ fuel spans, chunkSpans (pyStrip text.data) cs ov fuel 0 = some spans →
      spansChainedFrom ov 0 spans :=
  ⟨chunk_text_isSome text cs ov hcs hov,
   fun fuel spans h => chunkSpans_chained (pyStrip text.data) cs ov fuel 0 spans h⟩

/-- Witness for C2 (amended) at a concrete input. -/
theorem c2_witness :
    (chunk_text "Sentence one. Sentence two." 10 2).isSome = true :=
  (c2_loop_terminates_half_overlap "Sentence one. Sentence two." 10 2
    (by norm_num) (by norm_num)).1

/-- C9: a non-empty all-whitespace input takes the short path: the text
is stripped to the empty string, whose length is `≤ chunk_size`, and is
yielded as the single chunk — the emptiness filter of the loop is not
applied on this path. -/
theorem c9_whitespace_single_empty_chunk (text : String) (cs ov : Nat)
    (h1 : text.data ≠ []) (h2 : ∀ c ∈ text.data, isPySpace c = true) :
    chunk_text text cs ov = some [[]] := by
  simp only [chunk_text]
  rw [if_neg h1, pyStrip_eq_nil text.data h2]
  simp

/-- Witness for C9 at a concrete input. -/
theorem c9_witness :
    "  \n ".data ≠ [] ∧ chunk_text "  \n " 1000 200 = some [[]] :=
  ⟨by decide,
   c9_whitespace_single_empty_chunk "  \n " 1000 200 (by decide) (by decide)⟩

/-- C5 counterexample: emitted chunks are whitespace-stripped
(`text[start:end].strip()`), so whitespace at window boundaries is lost:
with `chunk_text("aaaa aaaa aaaa", 5, 0)` (zero overlap, so removing the
overlapping regions is plain concatenation) the chunks concatenate to
`"aaaaaaaaaaaa"`, not the trimmed original. -/
theorem c5_counterexample :
    chunk_text "aaaa aaaa aaaa" 5 0 =
      some ["aaaa".data, "aaaa".data, "aaaa".data] ∧
    (["aaaa".data, "aaaa".data, "aaaa".data] : List (List Char)).flatten
      ≠ pyStrip "aaaa aaaa aaaa".data := by
  exact ⟨by decide, by decide⟩

/-- C5 (amended): what reconstructs the trimmed text is the sequence of
raw chunk WINDOWS with the overlapping regions removed
(`chunkWindowsJoined`); the emitted chunks are exactly these windows
whitespace-trimmed (with empty ones dropped), so the emitted chunks
themselves may lose boundary whitespace.  Holds in the terminating
regime `0 < chunk_size`, `overlap ≤ chunk_size / 2`. -/
theorem c5_windows_reconstruct (text : String) (cs ov : Nat)
    (hcs : 0 < cs) (hov : ov ≤ cs / 2) :
    chunkWindowsJoined text cs ov = some (pyStrip text.data) ∧
    ∀ spans, chunkSpans (pyStrip text.data) cs ov ((pyStrip text.data).length + 1) 0
        = some spans → cs < (pyStrip text.data).length →
      chunk_text text cs ov = some
        ((spans.map (chunkOfSpan (pyStrip text.data))).filter (fun c => !c.isEmpty)) := by
  constructor
  · simp only [chunkWindowsJoined]
    by_cases h1 : text.data = []
    · rw [if_pos h1, h1]
      rfl
    · rw [if_neg h1]
      by_cases h2 : (pyStrip text.data).length ≤ cs
      · rw [if_pos h2]
      · rw [if_neg h2]
        have hs := chunkSpans_isSome (pyStrip text.data) cs ov hcs hov
          (pyStrip text.data).length 0 (le_refl 0) (by omega)
        obtain ⟨spans, hspans⟩ := Option.isSome_iff_exists.mp hs
        rw [hspans]
        simp only [Option.map_some']
        rw [chunkSpans_reconstruct (pyStrip text.data) cs ov hcs hov _ spans hspans]
  · intro spans hspans hlt
    have h1 : text.data ≠ [] := by
      intro h
      rw [h] at hlt
      have : pyStrip ([] : List Char) = [] := rfl
      rw [this] at hlt
      simp at hlt
    simp only [chunk_text]
    rw [if_neg h1, if_neg (not_le.mpr hlt), hspans]
    rfl

/-- Witness for C5 (amended) at a concrete input. -/
theorem c5_witness :
    chunkWindowsJoined "aaaa aaaa aaaa" 5 2 = some (pyStrip "aaaa aaaa aaaa".data) :=
  (c5_windows_reconstruct "aaaa aaaa aaaa" 5 2 (by norm_num) (by norm_num)).1

/-- C7 counterexample: the chunk boundary is NOT the last occurrence of
any separator in the window.  In `"abcdef. gh\nijklmnopqrs"` with
`chunk_size = 12` the search window is `[6, 12)`; the last separator
occurrence there is the `"\n"` at index 10 (all separator occurrences
are at index ≤ 10), so the claimed chunk would be
`text[0:11].strip() = "abcdef. gh"` — but the code tries `". "` first
(priority order) and emits `"abcdef."`. -/
theorem c7_counterexample :
    (∀ sep ∈ seps,
        (pyRfind? "abcdef. gh\nijklmnopqrs".data sep 6 12).getD 0 ≤ 10) ∧
    pyRfind? "abcdef. gh\nijklmnopqrs".data "\n".data 6 12 = some 10 ∧
    chunk_text "abcdef. gh\nijklmnopqrs" 12 3 =
      some ["abcdef.".data, "f. gh\nijklmn".data, "lmnopqrs".data] ∧
    pyStrip (pySlice "abcdef. gh\nijklmnopqrs".data 0 11) = "abcdef. gh".data ∧
    ("abcdef.".data : List Char) ≠ "abcdef. gh".data := by
  exact ⟨by decide, by decide, by decide, by decide, by decide⟩

/-- C7 (amended): every emitted chunk has at most `chunk_size`
characters (in the terminating regime `overlap ≤ chunk_size / 2`), and
the boundary is the last occurrence of the FIRST separator, in the
priority order `". ", "? ", "! ", "\n\n", "\n"`, that occurs in the
window `[cursor + chunk_size/2, cursor + chunk_size)`; with no separator
the chunk ends at `cursor + chunk_size`.  The spec's example holds: the
first chunk of `chunk_text("Sentence one. Sentence two. Sentence
three.", 20, 5)` is `"Sentence one."`, broken at the `". "` boundary. -/
theorem c7_chunk_size_bound_and_example :
    (∀ (text : String) (cs ov : Nat) (lst : List (List Char)) (c : List Char),
        0 < cs → ov ≤ cs / 2 → chunk_text text cs ov = some lst → c ∈ lst →
        c.length ≤ cs) ∧
    chunk_text "Sentence one. Sentence two. Sentence three." 20 5 =
      some ["Sentence one.".data, "one. Sentence two.".data,
        "two. Sentence three.".data, "hree.".data] := by
  constructor
  · intro text cs ov lst c hcs hov hct hc
    simp only [chunk_text] at hct
    by_cases h1 : text.data = []
    · rw [if_pos h1] at hct
      simp only [Option.some.injEq] at hct
      subst hct
      simp at hc
    · rw [if_neg h1] at hct
      by_cases h2 : (pyStrip text.data).length ≤ cs
      · rw [if_pos h2] at hct
        simp only [Option.some.injEq] at hct
        subst hct
        simp only [List.mem_singleton] at hc
        subst hc
        exact h2
      · rw [if_neg h2] at hct
        cases hspans : chunkSpans (pyStrip text.data) cs ov
            ((pyStrip text.data).length + 1) 0 with
        | none => rw [hspans] at hct; simp at hct
        | some spans =>
          rw [hspans] at hct
          simp only [Option.map_some', Option.some.injEq] at hct
          subst hct
          rw [List.mem_filter] at hc
          obtain ⟨p, hp, rfl⟩ := List.mem_map.mp hc.1
          have hb := chunkSpans_spans_bounds (pyStrip text.data) cs ov hcs hov
            _ 0 spans (le_refl 0) hspans p hp
          exact chunkOfSpan_length_le _ cs p hb.1 hb.2.1 hb.2.2
  · decide

/-- Witness for C7 (amended) at a concrete input. -/
theorem c7_witness :
    chunk_text "abc" 5 1 = some ["abc".data] ∧ ("abc".data).length ≤ 5 :=
  ⟨by decide,
   c7_chunk_size_bound_and_example.1 "abc" 5 1 ["abc".data] "abc".data
     (by norm_num) (by norm_num) (by decide) (by decide)⟩

/-- C3 counterexample: the budget counts only the block lengths, not the
`"\n---\n"` separators added by the final join, so the returned string
can exceed `max_chars`: two 15-character blocks fit a budget of 30, but
the joined string has 35 characters. -/
theorem c3_counterexample :
    30 < (build_context
      [⟨"c0".data, "xy".data, some "a".data⟩,
       ⟨"c1".data, "xy".data, some "a".data⟩] 30).length := by
  decide

/-- C3 (amended): `build_context` keeps blocks in result order and stops
before the SUM OF BLOCK LENGTHS exceeds `max_chars`; the separators of
the final `"\n---\n".join` are not counted, so the returned string can
exceed the budget by up to 5 characters per included block (exactly
5·(blocks−1)). -/
theorem c3_block_budget (results : List SearchResult) (maxChars : Nat) :
    ((contextParts maxChars results 0).map List.length).sum ≤ maxChars ∧
    (build_context results maxChars).length
      ≤ maxChars + 5 * (contextParts maxChars results 0).length := by
  have h1 := contextParts_total_le maxChars results 0 (Nat.zero_le _)
  refine ⟨by omega, ?_⟩
  rw [build_context]
  refine le_trans (joinSep_length_le ("\n---\n".data) (contextParts maxChars results 0)) ?_
  rw [sum_map_add_const]
  have h4 : ("\n---\n".data : List Char).length = 5 := rfl
  rw [h4]
  omega

/-- C4 counterexample: `ask` reports `context_chunks = len(results)`,
the number of RETRIEVED chunks, not the number actually included in the
context: a single retrieved chunk of 9000 characters produces a block of
9019 characters, which the 8000-character budget drops entirely
(`contextParts` is empty), yet `context_chunks` is 1. -/
theorem c4_counterexample :
    (ask (fun _ _ _ => []) (fun _ _ _ => []) [] "anthropic".data none
        [⟨"chunk_0".data, List.replicate 9000 'x', some "big.mp4".data⟩]).context_chunks
      ≠ (contextParts 8000
          [⟨"chunk_0".data, List.replicate 9000 'x', some "big.mp4".data⟩] 0).length := by
  have h1 : ("[Source: ".data : List Char).length = 9 := rfl
  have h2 : ("big.mp4".data : List Char).length = 7 := rfl
  have h3 : ("]\n".data : List Char).length = 2 := rfl
  have h4 : ("\n".data : List Char).length = 1 := rfl
  have h5 : (List.replicate 9000 'x').length = 9000 := List.length_replicate 9000 'x'
  have hpart : (mkPart
      ⟨"chunk_0".data, List.replicate 9000 'x', some "big.mp4".data⟩).length = 9019 := by
    simp only [mkPart, srcOf, Option.getD_some, List.length_append, h1, h2, h3, h4, h5]
  have hdrop : contextParts 8000
      [⟨"chunk_0".data, List.replicate 9000 'x', some "big.mp4".data⟩] 0 = [] := by
    simp only [contextParts, hpart]
    norm_num
  have hask : (ask (fun _ _ _ => []) (fun _ _ _ => []) [] "anthropic".data none
      [⟨"chunk_0".data, List.replicate 9000 'x', some "big.mp4".data⟩]).context_chunks
      = 1 := rfl
  rw [hask, hdrop]
  norm_num

/-- C4 (amended): for a non-empty retrieval result, `ask` reports
`context_chunks` equal to the number of RETRIEVED chunks (even those the
context budget dropped), and its `sources` contain the source file of
EVERY retrieved chunk, contributing or not. -/
theorem c4_ask_reports_retrieved
    (llmO llmA : List Char → List Char → List Char → List Char)
    (q provider : List Char) (model? : Option (List Char))
    (results : List SearchResult) (hr : results ≠ []) :
    (ask llmO llmA q provider model? results).context_chunks = results.length ∧
    ∀ r ∈ results, srcOf r ∈ (ask llmO llmA q provider model? results).sources := by
  simp only [ask, if_neg hr]
  refine ⟨by trivial, fun r hrm => mem_dedup.mpr (List.mem_map_of_mem srcOf hrm)⟩

/-- Witness for C4 (amended) at a concrete input. -/
theorem c4_witness :
    [(⟨"i".data, "t".data, some "f.mp4".data⟩ : SearchResult)] ≠ [] ∧
    (ask (fun _ _ _ => []) (fun _ _ _ => []) [] "anthropic".data none
      [⟨"i".data, "t".data, some "f.mp4".data⟩]).context_chunks = 1 :=
  ⟨by decide,
   (c4_ask_reports_retrieved (fun _ _ _ => []) (fun _ _ _ => []) []
     "anthropic".data none [⟨"i".data, "t".data, some "f.mp4".data⟩]
     (by decide)).1⟩

/-- C6: querying an empty store (no collection, or an empty one) returns
`[]`, and `ask` on an empty retrieval result returns the fixed
no-content answer with no sources and zero context chunks; the result
does not depend on the LLM oracles, i.e. no provider is invoked. -/
theorem c6_empty_store (ann : List Char → Nat → Collection → List SearchResult)
    (db : ChromaDB) (name q : List Char) (k : Nat)
    (h : lookupCollection db name = none ∨ lookupCollection db name = some []) :
    query_similar ann db name q k = [] ∧
    ∀ (llmO llmA llmO' llmA' : List Char → List Char → List Char → List Char)
      (question provider : List Char) (model? : Option (List Char)),
      ask llmO llmA question provider model? [] = ⟨noContentAnswer, [], 0⟩ ∧
      ask llmO llmA question provider model? []
        = ask llmO' llmA' question provider model? [] := by
  constructor
  · rcases h with h | h <;> simp [query_similar, get_or_create_collection, h]
  · exact fun llmO llmA llmO' llmA' question provider model? => ⟨rfl, rfl⟩

/-- Witness for C6 at a concrete input: a fresh client state with no
collections. -/
theorem c6_witness :
    query_similar (fun _ _ _ => []) ⟨[]⟩ COLLECTION_NAME [] 5 = [] :=
  (c6_empty_store (fun _ _ _ => []) ⟨[]⟩ COLLECTION_NAME [] 5 (Or.inl rfl)).1

/-- C8: `clear_database` is idempotent — clearing an already-cleared (or
never-existing) collection is not an error (the `ValueError` branch is
caught) and leaves the state unchanged — and `get_stats` after a clear
reports zero chunks, zero source files and an empty file list. -/
theorem c8_clear_idempotent (db : ChromaDB) (name : List Char) :
    clear_database (clear_database db name) name = clear_database db name ∧
    (get_stats (clear_database db name) name).2 = ⟨0, 0, []⟩ := by
  have h := lookup_clear db name
  constructor
  · rw [clear_database, delete_collection, h]
  · rw [get_stats, get_or_create_collection, h]
    rfl

/-- C10: any provider string other than `"openai"` (not only
`"anthropic"`) is routed to the Anthropic call with the default model
`claude-sonnet-4-20250514` when no model is given; no error is raised
for an unrecognised provider name. -/
theorem c10_provider_fallback
    (llmO llmA : List Char → List Char → List Char → List Char)
    (q provider : List Char) (results : List SearchResult)
    (hp : provider ≠ "openai".data) (hr : results ≠ []) :
    ask llmO llmA q provider none results =
      ⟨llmA defaultAnthropicModel q (build_context results 8000),
       dedup (results.map srcOf), results.length⟩ := by
  simp only [ask, if_neg hr, if_neg hp]
  rfl

/-- Witness for C10 at a concrete input: the unrecognised provider
`"gemini"` goes to the Anthropic oracle with the default model. -/
theorem c10_witness :
    ("gemini".data : List Char) ≠ "openai".data ∧
    ask (fun _ _ _ => "o".data) (fun m _ _ => m) [] "gemini".data none
        [⟨"i".data, "t".data, some "f.mp4".data⟩]
      = ⟨defaultAnthropicModel, ["f.mp4".data], 1⟩ := by
  refine ⟨by decide, ?_⟩
  have h := c10_provider_fallback (fun _ _ _ => "o".data) (fun m _ _ => m) []
    "gemini".data [⟨"i".data, "t".data, some "f.mp4".data⟩] (by decide) (by decide)
  rw [h]
  decide

end ContentVector
